import Mathlib

/-!
Verification development for filmow-to-csv (src/filmow-to-csv.py).

The Python source is shallowly embedded below.  Pure helpers become Lean
functions over `String` / `List Char`; the network is an explicit oracle
(a list of `FetchOutcome` values consumed one per HTTP attempt); the shared
prefetch cache is an association list with Python-dict insertion order and
overwrite-on-assignment semantics; side effects that matter to the claims
(HTTP attempts with their timeouts, sleeps, worker-counter updates) are
recorded as explicit event traces.
-/

namespace Filmow

/-! ## Utility functions (source lines 84-106) -/

/-- Inner loop of `deduplicatedList` (source lines 84-91): walk the list,
keeping a value only when it was not seen before; `known` models the
`knownValues` set. -/
def dedupGo {α : Type} [DecidableEq α] (known : List α) : List α → List α
  | [] => []
  | v :: rest => if v ∈ known then dedupGo known rest else v :: dedupGo (v :: known) rest

/-- `deduplicatedList(l)` (source lines 84-91). -/
def deduplicatedList {α : Type} [DecidableEq α] (l : List α) : List α :=
  dedupGo [] l

/-- Modelled from the spec: the subsequence of a list consisting of the first
occurrence of each element, "preserves first-occurrence order and removes all
later repeats".  Stated only for comparison with `deduplicatedList`. -/
def firstOccurrences {α : Type} [DecidableEq α] : List α → List α
  | [] => []
  | a :: rest => a :: firstOccurrences (rest.filter (fun x => x != a))
termination_by l => l.length
decreasing_by
  simp only [List.length_cons]
  exact Nat.lt_succ_of_le (List.length_filter_le _ _)

/-- Python `s.split(sep)` for a one-character separator: `splitOnChar sep []`
is `[[]]`, matching Python where splitting an empty string yields one empty
part. -/
def splitOnChar (sep : Char) : List Char → List (List Char)
  | [] => [[]]
  | c :: rest =>
    let r := splitOnChar sep rest
    if c = sep then [] :: r
    else
      match r with
      | [] => [[c]]
      | g :: gs => (c :: g) :: gs

/-- `isSeasonURL` (source lines 93-97): drop the final character, take the part
after the last slash (Python `rsplit('/', maxsplit=1)[-1]`), split it on
hyphens and compare the second-to-last token with the season word. -/
def isSeasonURL (entryURL : String) : Bool :=
  if entryURL.data.isEmpty then false
  else
    let nameParts := splitOnChar '-' ((splitOnChar '/' entryURL.data.dropLast).getLastD [])
    if nameParts.length < 2 then false
    else nameParts.getD (nameParts.length - 2) [] == "temporada".data

/-- Season filtering for a single-list collection when the type filter does
not include series (source lines 421-422): season URLs are removed. -/
def seasonFilter (listEntries : List (String × String × String)) :
    List (String × String × String) :=
  listEntries.filter (fun e => !(isSeasonURL e.1))

/-- Season retagging for a single-list collection when the type filter
includes series (source lines 423-424): season URLs get title type
series. -/
def seasonRetag (listEntries : List (String × String × String)) :
    List (String × String × String) :=
  listEntries.map (fun e => (e.1, e.2.1, if isSeasonURL e.1 then "series" else e.2.2))

/-- The single-list branch of the main script (source lines 420-424):
deduplicate the collected entries, then filter out or retag season URLs
depending on whether series is in the active type filter. -/
def listBranch (collected : List (String × String × String)) (titleTypes : List String) :
    List (String × String × String) :=
  let listEntries := deduplicatedList collected
  if "series/" ∈ titleTypes then seasonRetag listEntries else seasonFilter listEntries

/-- Replacement head of the release-dates URL built by `datesPageURL`
(source line 106). -/
def datesURLHead : List Char := "https://filmow.com/estreias-do-filme/".data

/-- `datesPageURL` (source lines 103-106): `re.sub` with the anchored pattern
matching any prefix, then the letter t, one or more digits and a final slash.
The regex matches exactly the urls ending in t-digits-slash, the captured
group being the maximal trailing digit run; on no match `re.sub` returns the
url unchanged.  (URLs in this program never contain newline characters, so
the newline subtleties of the Python dot and dollar are not modelled.) -/
def datesPageURL (url : String) : String :=
  if url.data.getLast? = some '/' then
    let rev := url.data.dropLast.reverse
    let ds := rev.takeWhile Char.isDigit
    if ds.isEmpty then url
    else if (rev.dropWhile Char.isDigit).head? = some 't' then
      String.mk (datesURLHead ++ ds.reverse ++ ['/'])
    else url
  else url

/-- Shape of the urls rewritten by `datesPageURL`: some prefix, the letter t,
a nonempty run of digits, and a trailing slash. -/
def endsWithIdSlash (url : String) : Prop :=
  ∃ p ds, url.data = p ++ 't' :: ds ++ ['/'] ∧ ds ≠ [] ∧ ∀ c ∈ ds, c.isDigit = true

/-- URL requested by the year fallback `yearFromDatesPage` (source line 194):
it asks the cache for `datesPageURL(entryURL)`. -/
def yearFallbackRequestURL (entryURL : String) : String :=
  datesPageURL entryURL

/-- URLs scheduled by the dates-page prefetch round (source line 431). -/
def datesPrefetchURLs (urls : List String) : List String :=
  urls.map datesPageURL

/-! ## Page-prefetching model (source lines 112-152) -/

/-- Outcome of one `requests.get` attempt: an exception (network error or
timeout), or a response whose Python truthiness is `ok` (status below 400)
with body `body`. -/
inductive FetchOutcome
  | exn
  | resp (ok : Bool) (body : String)
deriving DecidableEq, Repr

/-- Observable side effects of the fetching code: an HTTP GET attempt with
its timeout in seconds, a sleep, and the worker-counter updates. -/
inductive Ev
  | get (url : String) (timeoutSec : Nat)
  | sleep (seconds : Nat)
  | incWorkers
  | decWorkers
deriving DecidableEq, Repr

def isGet : Ev → Bool
  | .get _ _ => true
  | _ => false

/-- The `_prefetchedPages` dict: association list in insertion order. -/
abbrev Cache := List (String × String)

/-- Python dict read: value currently mapped to `k`, if present. -/
def dictLookup (m : Cache) (k : String) : Option String :=
  match m with
  | [] => none
  | (k2, v) :: rest => if k2 = k then some v else dictLookup rest k

/-- Python dict assignment `m[k] = v`: overwrites an existing entry in place,
otherwise appends a new entry (insertion order preserved). -/
def dictInsert (m : Cache) (k v : String) : Cache :=
  match m with
  | [] => [(k, v)]
  | (k2, v2) :: rest => if k2 = k then (k, v) :: rest else (k2, v2) :: dictInsert rest k v

/-- Consume one outcome from the network oracle; an exhausted oracle keeps
producing exceptions. -/
def attempt (net : List FetchOutcome) : FetchOutcome × List FetchOutcome :=
  match net with
  | [] => (.exn, [])
  | o :: rest => (o, rest)

/-- Inner retry loop of `prefetchPages` (source lines 124-128): up to `fuel`
attempts (the source runs it with fuel 4) with timeout 5; every attempt that
raises is followed by `sleep(5)`; the first attempt that returns a response
breaks out of the loop. -/
def fetchWithRetries (url : String) : Nat → List FetchOutcome →
    Option (Bool × String) × List FetchOutcome × List Ev
  | 0, net => (none, net, [])
  | fuel + 1, net =>
    match attempt net with
    | (.resp ok body, net2) => (some (ok, body), net2, [.get url 5])
    | (.exn, net2) =>
      let r := fetchWithRetries url fuel net2
      (r.1, r.2.1, .get url 5 :: .sleep 5 :: r.2.2)

/-- `not page` for the result of the retry loop: true when every attempt
raised or when the final response is falsy (bad status). -/
def fetchFailed (res : Option (Bool × String)) : Bool :=
  match res with
  | none => true
  | some (ok, _) => !ok

/-- `page.text if page else ''`: the recorded body. -/
def fetchBody (res : Option (Bool × String)) : String :=
  match res with
  | some (true, b) => b
  | _ => ""

/-- State after one worker step. -/
structure StepResult where
  net : List FetchOutcome
  failures : Nat
  cache : Cache
  evs : List Ev
deriving Repr

/-- Body of the per-url iteration of `prefetchPages` (source lines 123-135):
run the retry loop, bump the failure counter when the fetch failed, run the
10-second cooldown and reset the counter to 1 when the counter reached 3,
then assign the page body (empty string on failure) into the cache. -/
def processURL (url : String) (net : List FetchOutcome) (failures : Nat) (cache : Cache) :
    StepResult :=
  let w := fetchWithRetries url 4 net
  let failures2 := failures + (if fetchFailed w.1 then 1 else 0)
  { net := w.2.1,
    failures := if 3 ≤ failures2 then 1 else failures2,
    cache := dictInsert cache url (fetchBody w.1),
    evs := w.2.2 ++ (if 3 ≤ failures2 then [.sleep 10] else []) }

/-- The whole `for url in urls` loop of `prefetchPages`. -/
def prefetchPagesLoop (urls : List String) (net : List FetchOutcome) (failures : Nat)
    (cache : Cache) : StepResult :=
  match urls with
  | [] => { net := net, failures := failures, cache := cache, evs := [] }
  | url :: rest =>
    let r := processURL url net failures cache
    let r2 := prefetchPagesLoop rest r.net r.failures r.cache
    { net := r2.net, failures := r2.failures, cache := r2.cache, evs := r.evs ++ r2.evs }

/-- `prefetchPages` (source lines 117-138): increments the active-worker
counter, runs the batch loop with the failure counter starting at 0, then
decrements the counter.  The counter updates are recorded as events. -/
def prefetchPages (urls : List String) (net : List FetchOutcome) (cache : Cache) : StepResult :=
  let r := prefetchPagesLoop urls net 0 cache
  { r with evs := .incWorkers :: (r.evs ++ [.decWorkers]) }

/-- Body returned by the single-shot synchronous fetch inside `prefetchedPage`
(source lines 142-144): the body of the response when it is truthy, the empty
string on exception or falsy response. -/
def syncFetchBody (net : List FetchOutcome) : String :=
  match (attempt net).1 with
  | .resp true b => b
  | _ => ""

/-- `prefetchedPage` (source lines 140-146).  The returned `Option String` is
`some body` when the call returns, and `none` when the call is busy-polling
(`while (url not in _prefetchedPages): pass`), i.e. blocked until some worker
inserts the key; the event list records HTTP attempts performed by this call
and the returned cache is the cache after the call (the synchronous branch
never writes it). -/
def prefetchedPage (activePrefetchers : Nat) (cache : Cache) (net : List FetchOutcome)
    (url : String) : Option String × List Ev × Cache :=
  if activePrefetchers = 0 ∧ dictLookup cache url = none then
    (some (syncFetchBody net), [.get url 20], cache)
  else
    match dictLookup cache url with
    | some b => (some b, [], cache)
    | none => (none, [], cache)

/-- Python `range(start, stop, step)` for a positive step. -/
def pyRange (start stop step : Nat) : List Nat :=
  if h : 0 < step ∧ start < stop then start :: pyRange (start + step) stop step else []
termination_by stop - start
decreasing_by omega

/-- The chunk handed to worker `i` by `prefetch` (source line 150):
`[urls[j] for j in range(i, len(urls), workers)]`. -/
def chunkOf (urls : List String) (workers i : Nat) : List String :=
  (pyRange i urls.length workers).map (fun j => urls.getD j "")

/-- `prefetch` (source lines 148-152): builds one chunk per worker index and
starts a daemon thread running `prefetchPages` on it; the dispatcher never
joins the threads, so its own behaviour is fully described by the list of
spawned batches, which it returns here. -/
def prefetch (urls : List String) (workers : Nat) : List (List String) :=
  (List.range workers).map (chunkOf urls workers)

/-! ## Ratings model (`userRatings`, source lines 285-291) -/

/-- Nonnegative rationals are carried as explicit numerator/denominator
pairs `(num, den)` meaning num/den (den always positive here), so that the
whole computation is plain natural-number arithmetic. -/
abbrev Frac := ℕ × ℕ

/-- Round num/den to the nearest integer, ties to even (the rounding used
both by IEEE double operations and by Python `round`). -/
def roundHalfEven (num den : ℕ) : ℕ :=
  let f := num / den
  let r := num % den
  if 2 * r < den then f else if den < 2 * r then f + 1 else if f % 2 = 0 then f else f + 1

/-- Find the scale s with 2^52 <= (num/den) * 2^s < 2^53, searching the
range needed by the magnitudes arising in the rating computation (integer
percent values). -/
def findScale (q : Frac) : Option ℕ :=
  (List.range 40).findSome? (fun i =>
    let s := i + 30
    if 2 ^ 52 * q.2 ≤ q.1 * 2 ^ s ∧ q.1 * 2 ^ s < 2 ^ 53 * q.2 then some s else none)

/-- Nearest IEEE double (53-bit mantissa, round half to even) to a
nonnegative rational of the magnitudes used here; values outside the
searched magnitude window (only 0 arises) are returned unchanged. -/
def pyDouble (q : Frac) : Frac :=
  match findScale q with
  | none => q
  | some s => (roundHalfEven (q.1 * 2 ^ s) q.2, 2 ^ s)

/-- Python `round(x, 1)` on the exact value of the double x: the returned
natural t encodes the result t/10 (nearest multiple of 1/10, ties to even,
exactly as CPython rounds the stored double value). -/
def pyRound1 (x : Frac) : ℕ :=
  roundHalfEven (x.1 * 10) x.2

/-- The float value of `(int(rating) / 100) * 5` (source line 291) computed
with double-precision semantics: `p / 100` is correctly rounded to a double,
then the product with 5 is correctly rounded to a double. -/
def ratingFloat (p : ℕ) : Frac :=
  let d1 := pyDouble (p, 100)
  pyDouble (d1.1 * 5, d1.2)

/-- `str(round((int(rating) / 100) * 5, 1))` (source line 291) for the
integer percent `p` captured from the style attribute: the one-decimal
rendering of the rounded value, as Python `str` prints it. -/
def pyRatingStr (p : ℕ) : String :=
  let t := pyRound1 (ratingFloat p)
  toString (t / 10) ++ "." ++ toString (t % 10)

/-- `userRatings` (source lines 285-291).  A rating bar is abstracted to the
integer percent its style attribute encodes (`none` when the bar has no
average/style element, in which case the source appends the empty string). -/
def userRatings (bars : List (Option ℕ)) : List String :=
  bars.map (fun b =>
    match b with
    | none => ""
    | some p => pyRatingStr p)

/-! ## Target parsing model (`parseTarget`, source lines 323-346, and the
main-script control flow, source lines 352-442) -/

/-- Python `\s` on the ASCII range (the source only ever meets ASCII targets
from argv). -/
def pySpace (c : Char) : Bool :=
  c = ' ' || c = '\t' || c = '\n' || c = '\r' || c = Char.ofNat 11 || c = Char.ofNat 12

/-- Python `str.strip()`. -/
def pyStrip (s : List Char) : List Char :=
  ((s.dropWhile pySpace).reverse.dropWhile pySpace).reverse

/-- One character of the class `[a-zA-Z0-9_-]`. -/
def wordChar (c : Char) : Bool :=
  c.isAlphanum || c = '_' || c = '-'

/-- `re.sub(r'^(https?://)?(www\.)?filmow', r'https://filmow', target.strip())`
(source line 325): the optional scheme and the optional www prefix never
overlap the literal filmow, so greedy matching needs no backtracking. -/
def normalizeTarget (s : List Char) : List Char :=
  let t1 := if "https://".data.isPrefixOf s then s.drop 8
            else if "http://".data.isPrefixOf s then s.drop 7 else s
  let t2 := if "www.".data.isPrefixOf t1 then t1.drop 4 else t1
  if "filmow".data.isPrefixOf t2 then "https://filmow".data ++ t2.drop 6 else s

def listURLHead : List Char := "https://filmow.com/listas/".data

def userURLHead : List Char := "https://filmow.com/usuario/".data

/-- `[^/\s]+`: nonempty, no slash, no whitespace. -/
def noSlashSpace (m : List Char) : Bool :=
  !m.isEmpty && m.all (fun c => c != '/' && !pySpace c)

/-- `^https://filmow\.com/listas/[^/\s]+/?$` (source line 326). -/
def matchListURL (s : List Char) : Bool :=
  listURLHead.isPrefixOf s &&
    (let m := s.drop listURLHead.length
     noSlashSpace m || (m.getLast? == some '/' && noSlashSpace m.dropLast))

/-- `^https://filmow\.com/usuario/[^/\s]+(/.*)?$` (source line 329). -/
def matchUserURL (s : List Char) : Bool :=
  userURLHead.isPrefixOf s &&
    (let rest := s.drop userURLHead.length
     let uname := rest.takeWhile (fun c => c != '/' && !pySpace c)
     !uname.isEmpty && (let rem := rest.drop uname.length
                        rem.isEmpty || rem.head? == some '/'))

/-- `^[a-zA-Z0-9_-]+-l[0-9]+$` (source line 333): the digits are the maximal
trailing digit run, the two characters before it must be the literal hyphen
and l, and a nonempty word-class prefix must remain. -/
def matchListId (s : List Char) : Bool :=
  let rev := s.reverse
  let ds := rev.takeWhile Char.isDigit
  let rest := rev.dropWhile Char.isDigit
  !ds.isEmpty && rest.head? == some 'l' && rest.getD 1 ' ' == '-' &&
    !(rest.drop 2).isEmpty && (rest.drop 2).all wordChar

/-- `^[a-zA-Z0-9_-]+$` (source line 335). -/
def matchUsername (s : List Char) : Bool :=
  !s.isEmpty && s.all wordChar

/-- `re.sub(r'([^/])$', r'\1/', url)` (source line 328): append a slash when
the final character is not already one. -/
def ensureSlash (url : List Char) : List Char :=
  match url.getLast? with
  | some c => if c = '/' then url else url ++ ['/']
  | none => url

/-- The classification part of `parseTarget` (source lines 324-339), before
the reachability probe: list URL, user URL, short list id, bare username, or
invalid (`none`). -/
def classifyTarget (target : String) : Option (Bool × List Char × List Char) :=
  let url := normalizeTarget (pyStrip target.data)
  if matchListURL url then
    let m := url.drop listURLHead.length
    let name := if m.getLast? == some '/' then m.dropLast else m
    some (false, ensureSlash url, name)
  else if matchUserURL url then
    let rest := url.drop userURLHead.length
    let uname := rest.takeWhile (fun c => c != '/' && !pySpace c)
    some (true, userURLHead ++ uname ++ ['/'], uname)
  else if matchListId url then
    some (false, listURLHead ++ url.map Char.toLower ++ ['/'], url.map Char.toLower)
  else if matchUsername url then
    some (true, userURLHead ++ url.map Char.toLower ++ ['/'], url.map Char.toLower)
  else none

/-- Outcome of the pre-run `requests.head` reachability probe
(source line 340). -/
inductive ProbeOutcome
  | exn
  | resp (status : Nat)
deriving DecidableEq, Repr

/-- `parseTarget` (source lines 323-346): classify the target, then run the
probe.  A falsy probe result (exception, or a response with status at least
400) prints the could-not-reach warning; a truthy response with status
outside 200-203 prints the bad-status warning.  In every case the function
returns the classification result: the probe outcome only selects warnings
(source lines 340-346). -/
def parseTarget (target : String) (probe : ProbeOutcome) :
    Option (Bool × List Char × List Char) × List String :=
  match classifyTarget target with
  | none => (none, ["invalid username or URL"])
  | some r =>
    let msgs :=
      match probe with
      | .exn => ["could not reach target"]
      | .resp status =>
        if 400 ≤ status then ["could not reach target"]
        else if status < 200 ∨ 203 < status then ["bad status from target"] else []
    (some r, msgs)

/-- Configuration accumulated by the option loop (source lines 353-358). -/
structure CliConfig where
  outputPath : String
  titleTypes : List String
  userCollections : List Char
  nPrefetcherThreads : Nat
  tryYear : Bool
deriving DecidableEq, Repr

/-- `^[0-9]{1,2}$` (source line 375). -/
def isThreadCount (s : String) : Bool :=
  (s.data.length = 1 || s.data.length = 2) && s.data.all Char.isDigit

/-- The option loop of the main script (source lines 372-388).  Exit code 2
on a malformed thread count; an unrecognized option only warns and the loop
continues. -/
def cliOptions (cfg : CliConfig) (nextOptionIsN : Bool) : List String → Except Nat CliConfig
  | [] => .ok cfg
  | option :: rest =>
    if nextOptionIsN then
      if isThreadCount option then
        cliOptions { cfg with nPrefetcherThreads := option.toNat?.getD 0 } false rest
      else .error 2
    else if option = "-S" then cliOptions { cfg with titleTypes := ["series/", "tv/"] } false rest
    else if option = "-l" then cliOptions { cfg with titleTypes := ["filmes/"] } false rest
    else if option = "-s" then cliOptions { cfg with titleTypes := ["curtas/"] } false rest
    else if option = "-f" then
      cliOptions { cfg with titleTypes := ["filmes/", "curtas/"] } false rest
    else if option.startsWith "-" ∧ option.data.getD 1 ' ' ∈ ['w', 'W', 'F'] then
      cliOptions { cfg with userCollections := [option.data.getD 1 ' '] } false rest
    else if option = "-y" then cliOptions { cfg with tryYear := false } false rest
    else if option = "-t" then cliOptions cfg true rest
    else cliOptions cfg false rest

/-- Default configuration (source lines 354-358); `cwd` stands for
`getcwd()`. -/
def defaultConfig (cwd : String) : CliConfig :=
  { outputPath := cwd, titleTypes := ["filmes/", "curtas/", "series/", "tv/"],
    userCollections := ['W', 'w', 'F'], nPrefetcherThreads := 15, tryYear := true }

/-- Command-line parsing (source lines 361-388).  `.error 0` is the usage
path (`exit(0)`), `.error 1` the invalid-output-directory path, `.error 2`
the invalid-thread-count path. -/
def cliParse (argv : List String) (cwd : String) (isdir : String → Bool) : Except Nat CliConfig :=
  if argv.length = 1 ∨ argv.getD 1 "" = "-h" ∨ argv.getD 1 "" = "--help" then .error 0
  else if 3 ≤ argv.length then
    let secondLast := argv.getD (argv.length - 2) ""
    if isdir secondLast then
      cliOptions { defaultConfig cwd with outputPath := secondLast } false (argv.drop 1).dropLast
    else if ¬ secondLast.startsWith "-" then .error 1
    else cliOptions (defaultConfig cwd) false (argv.drop 1).dropLast
  else .ok (defaultConfig cwd)

/-- Outcome of one whole run: terminated with an explicit status, or reached
the final success line (Done, implicit status 0). -/
inductive RunOutcome
  | exited (code : Nat)
  | doneOk
deriving DecidableEq, Repr

/-- Exit-relevant control flow of the main script (source lines 352-442):
command-line parsing, then target resolution (a local file is read, an
unreadable file being `exit(3)`; otherwise `parseTarget` runs, and a `None`
base URL makes `stderr.write(name)` raise `TypeError` on the `None` name, so
the interpreter terminates with status 1 before reaching `exit(3)`).  The
collection phase absorbs per-entry failures (spec sections 4.4 and 7) and is
modelled as non-exiting; afterwards the script prints Done and finishes with
status 0. -/
def runModel (argv : List String) (cwd : String) (isdir isfile : String → Bool)
    (fileRead : Option (List String)) (probe : ProbeOutcome) : RunOutcome :=
  match cliParse argv cwd isdir with
  | .error c => .exited c
  | .ok _ =>
    let target := argv.getLastD ""
    if isfile target then
      match fileRead with
      | none => .exited 3
      | some _ => .doneOk
    else
      match (parseTarget target probe).1 with
      | none => .exited 1
      | some _ => .doneOk

/-! ## Lemmas about deduplication -/

theorem dedupGo_sublist {α : Type} [DecidableEq α] (known l : List α) :
    List.Sublist (dedupGo known l) l := by
  induction l generalizing known with
  | nil => simp [dedupGo]
  | cons v rest ih =>
    by_cases h : v ∈ known
    · simp only [dedupGo, if_pos h]
      exact (ih known).cons v
    · simp only [dedupGo, if_neg h]
      exact (ih (v :: known)).cons₂ v

theorem mem_dedupGo {α : Type} [DecidableEq α] (known l : List α) (a : α) :
    a ∈ dedupGo known l ↔ a ∈ l ∧ a ∉ known := by
  induction l generalizing known with
  | nil => simp [dedupGo]
  | cons v rest ih =>
    by_cases h : v ∈ known
    · simp only [dedupGo, if_pos h, ih, List.mem_cons]
      constructor
      · rintro ⟨h1, h2⟩
        exact ⟨Or.inr h1, h2⟩
      · rintro ⟨h1 | h1, h2⟩
        · exact absurd (h1 ▸ h) h2
        · exact ⟨h1, h2⟩
    · simp only [dedupGo, if_neg h, List.mem_cons, ih, not_or]
      constructor
      · rintro (rfl | ⟨h1, h2⟩)
        · exact ⟨Or.inl rfl, h⟩
        · exact ⟨Or.inr h1, h2.2⟩
      · rintro ⟨rfl | h1, h2⟩
        · exact Or.inl rfl
        · by_cases hav : a = v
          · exact Or.inl hav
          · exact Or.inr ⟨h1, hav, h2⟩

theorem dedupGo_nodup {α : Type} [DecidableEq α] (known l : List α) :
    (dedupGo known l).Nodup := by
  induction l generalizing known with
  | nil => simp [dedupGo]
  | cons v rest ih =>
    by_cases h : v ∈ known
    · simp only [dedupGo, if_pos h]
      exact ih known
    · simp only [dedupGo, if_neg h]
      rw [List.nodup_cons]
      refine ⟨fun hv => ?_, ih (v :: known)⟩
      exact ((mem_dedupGo _ _ _).1 hv).2 (List.mem_cons_self v known)

theorem dedupGo_eq_self {α : Type} [DecidableEq α] (known l : List α) (hnd : l.Nodup)
    (hdisj : ∀ a ∈ l, a ∉ known) : dedupGo known l = l := by
  induction l generalizing known with
  | nil => simp [dedupGo]
  | cons v rest ih =>
    have hv : v ∉ known := hdisj v (List.mem_cons_self _ _)
    rw [List.nodup_cons] at hnd
    simp only [dedupGo, if_neg hv]
    congr 1
    refine ih (v :: known) hnd.2 ?_
    intro a ha
    simp only [List.mem_cons, not_or]
    exact ⟨fun hav => hnd.1 (hav ▸ ha), hdisj a (List.mem_cons_of_mem _ ha)⟩

theorem firstOccurrences_cons {α : Type} [DecidableEq α] (a : α) (l : List α) :
    firstOccurrences (a :: l) = a :: firstOccurrences (l.filter (fun x => x != a)) := by
  rw [firstOccurrences]

theorem dedupGo_eq_firstOcc_aux {α : Type} [DecidableEq α] :
    ∀ (n : Nat) (l known : List α), l.length ≤ n →
      dedupGo known l = firstOccurrences (l.filter (fun x => decide (x ∉ known)))
  | _, [], _, _ => by simp [dedupGo, firstOccurrences]
  | 0, v :: rest, _, h => absurd h (by simp)
  | n + 1, v :: rest, known, h => by
    have hr : rest.length ≤ n := by
      simp only [List.length_cons] at h
      omega
    by_cases hv : v ∈ known
    · have hd : (decide (v ∉ known)) = false := by simp [hv]
      rw [List.filter_cons]
      simp only [hd, Bool.false_eq_true, if_false]
      simp only [dedupGo, if_pos hv]
      exact dedupGo_eq_firstOcc_aux n rest known hr
    · have hd : (decide (v ∉ known)) = true := by simp [hv]
      rw [List.filter_cons]
      simp only [hd, if_true]
      rw [firstOccurrences_cons]
      simp only [dedupGo, if_neg hv]
      congr 1
      rw [dedupGo_eq_firstOcc_aux n rest (v :: known) hr, List.filter_filter]
      have hpred : (fun x => decide (x ∉ v :: known)) =
          (fun a => a != v && decide (a ∉ known)) := by
        funext x
        by_cases hx : x = v
        · subst hx
          simp
        · by_cases hk : x ∈ known <;> simp [hx, hk]
      rw [hpred]

/-- C6: `deduplicatedList` preserves the first occurrence of each element in
its original order and removes all later repeats — it equals the
spec-modelled `firstOccurrences` subsequence, is a duplicate-free sublist of
its input with the same members — and it is idempotent. -/
theorem C6_deduplicatedList (l : List String) :
    deduplicatedList l = firstOccurrences l ∧
    List.Sublist (deduplicatedList l) l ∧
    (deduplicatedList l).Nodup ∧
    (∀ a, a ∈ deduplicatedList l ↔ a ∈ l) ∧
    deduplicatedList (deduplicatedList l) = deduplicatedList l := by
  refine ⟨?_, dedupGo_sublist _ _, dedupGo_nodup _ _, ?_, ?_⟩
  · have h := dedupGo_eq_firstOcc_aux l.length l [] le_rfl
    have hf : l.filter (fun x => decide (x ∉ ([] : List String))) = l := by
      simp
    rw [deduplicatedList, h, hf]
  · intro a
    rw [deduplicatedList, mem_dedupGo]
    simp
  · exact dedupGo_eq_self [] _ (dedupGo_nodup _ _) (by simp)

/-! ## Lemmas about the prefetch cache and the fetcher -/

theorem dictLookup_dictInsert_self (m : Cache) (k v : String) :
    dictLookup (dictInsert m k v) k = some v := by
  induction m with
  | nil => simp [dictInsert, dictLookup]
  | cons p rest ih =>
    obtain ⟨k2, v2⟩ := p
    by_cases h : k2 = k
    · simp [dictInsert, dictLookup, h]
    · simp [dictInsert, dictLookup, h, ih]

theorem dictLookup_dictInsert_ne (m : Cache) (k v u : String) (h : u ≠ k) :
    dictLookup (dictInsert m k v) u = dictLookup m u := by
  induction m with
  | nil => simp [dictInsert, dictLookup, Ne.symm h]
  | cons p rest ih =>
    obtain ⟨k2, v2⟩ := p
    by_cases hk : k2 = k
    · subst hk
      simp [dictInsert, dictLookup, Ne.symm h]
    · by_cases hu : k2 = u <;> simp [dictInsert, dictLookup, hk, hu, h, ih]

theorem processURL_cache (url : String) (net : List FetchOutcome) (failures : Nat) (cache : Cache) :
    (processURL url net failures cache).cache =
      dictInsert cache url (fetchBody (fetchWithRetries url 4 net).1) := rfl

theorem processURL_failures (url : String) (net : List FetchOutcome) (failures : Nat)
    (cache : Cache) :
    (processURL url net failures cache).failures =
      if 3 ≤ failures + (if fetchFailed (fetchWithRetries url 4 net).1 then 1 else 0) then 1
      else failures + (if fetchFailed (fetchWithRetries url 4 net).1 then 1 else 0) := rfl

theorem processURL_evs (url : String) (net : List FetchOutcome) (failures : Nat) (cache : Cache) :
    (processURL url net failures cache).evs =
      (fetchWithRetries url 4 net).2.2 ++
        (if 3 ≤ failures + (if fetchFailed (fetchWithRetries url 4 net).1 then 1 else 0)
         then [Ev.sleep 10] else []) := rfl

theorem fetchWithRetries_evs (url : String) :
    ∀ (fuel : Nat) (net : List FetchOutcome),
      (fetchWithRetries url fuel net).2.2.length ≤ 2 * fuel ∧
      (fetchWithRetries url fuel net).2.2.countP isGet ≤ fuel ∧
      (∀ i (h : i < (fetchWithRetries url fuel net).2.2.length),
        (fetchWithRetries url fuel net).2.2.get ⟨i, h⟩ =
          if i % 2 = 0 then Ev.get url 5 else Ev.sleep 5) := by
  intro fuel
  induction fuel with
  | zero =>
    intro net
    simp [fetchWithRetries]
  | succ fuel ih =>
    intro net
    match net with
    | [] =>
      obtain ⟨ih1, ih2, ih3⟩ := ih []
      simp only [fetchWithRetries, attempt]
      refine ⟨?_, ?_, ?_⟩
      · simp only [List.length_cons]
        omega
      · simp [List.countP_cons, isGet]
        omega
      · rintro (_ | _ | i) h
        · rfl
        · rfl
        · have hi : i < (fetchWithRetries url fuel []).2.2.length := by
            simpa using h
          have hmod : (i + 1 + 1) % 2 = i % 2 := by omega
          rw [hmod]
          exact ih3 i hi
    | o :: rest =>
      cases o with
      | resp ok body =>
        simp only [fetchWithRetries, attempt]
        refine ⟨by simp; omega, by simp [isGet], ?_⟩
        rintro (_ | i) h
        · rfl
        · simp at h
      | exn =>
        obtain ⟨ih1, ih2, ih3⟩ := ih rest
        simp only [fetchWithRetries, attempt]
        refine ⟨?_, ?_, ?_⟩
        · simp only [List.length_cons]
          omega
        · simp [List.countP_cons, isGet]
          omega
        · rintro (_ | _ | i) h
          · rfl
          · rfl
          · have hi : i < (fetchWithRetries url fuel rest).2.2.length := by
              simpa using h
            have hmod : (i + 1 + 1) % 2 = i % 2 := by omega
            rw [hmod]
            exact ih3 i hi

theorem fetchWithRetries_evs_mem (url : String) :
    ∀ (fuel : Nat) (net : List FetchOutcome) (e : Ev),
      e ∈ (fetchWithRetries url fuel net).2.2 → e = Ev.get url 5 ∨ e = Ev.sleep 5 := by
  intro fuel
  induction fuel with
  | zero =>
    intro net e he
    simp [fetchWithRetries] at he
  | succ fuel ih =>
    intro net e he
    match net with
    | [] =>
      simp only [fetchWithRetries, attempt, List.mem_cons] at he
      rcases he with rfl | rfl | he
      · exact Or.inl rfl
      · exact Or.inr rfl
      · exact ih [] e he
    | o :: rest =>
      cases o with
      | resp ok body =>
        simp only [fetchWithRetries, attempt, List.mem_cons, List.not_mem_nil, or_false] at he
        exact Or.inl he
      | exn =>
        simp only [fetchWithRetries, attempt, List.mem_cons] at he
        rcases he with rfl | rfl | he
        · exact Or.inl rfl
        · exact Or.inr rfl
        · exact ih rest e he

theorem processURL_evs_mem (url : String) (net : List FetchOutcome) (failures : Nat)
    (cache : Cache) (e : Ev) (he : e ∈ (processURL url net failures cache).evs) :
    e = Ev.get url 5 ∨ e = Ev.sleep 5 ∨ e = Ev.sleep 10 := by
  rw [processURL_evs] at he
  rcases List.mem_append.1 he with h | h
  · rcases fetchWithRetries_evs_mem url 4 net e h with h | h
    · exact Or.inl h
    · exact Or.inr (Or.inl h)
  · by_cases hc : 3 ≤ failures + (if fetchFailed (fetchWithRetries url 4 net).1 then 1 else 0)
    · rw [if_pos hc] at h
      simp at h
      exact Or.inr (Or.inr h)
    · rw [if_neg hc] at h
      simp at h

theorem prefetchPagesLoop_no_counter (urls : List String) :
    ∀ (net : List FetchOutcome) (failures : Nat) (cache : Cache),
      Ev.incWorkers ∉ (prefetchPagesLoop urls net failures cache).evs ∧
      Ev.decWorkers ∉ (prefetchPagesLoop urls net failures cache).evs := by
  induction urls with
  | nil =>
    intro net failures cache
    simp [prefetchPagesLoop]
  | cons url rest ih =>
    intro net failures cache
    simp only [prefetchPagesLoop, List.mem_append, not_or]
    obtain ⟨ih1, ih2⟩ := ih _ _ _
    constructor
    · refine ⟨fun hmem => ?_, ih1⟩
      rcases processURL_evs_mem url net failures cache _ hmem with h | h | h <;> simp at h
    · refine ⟨fun hmem => ?_, ih2⟩
      rcases processURL_evs_mem url net failures cache _ hmem with h | h | h <;> simp at h

theorem prefetchPagesLoop_cache_preserve (urls : List String) :
    ∀ (net : List FetchOutcome) (failures : Nat) (cache : Cache) (u : String), u ∉ urls →
      dictLookup (prefetchPagesLoop urls net failures cache).cache u = dictLookup cache u := by
  induction urls with
  | nil =>
    intro net failures cache u _
    rfl
  | cons url rest ih =>
    intro net failures cache u hu
    simp only [List.mem_cons, not_or] at hu
    simp only [prefetchPagesLoop]
    rw [ih _ _ _ u hu.2, processURL_cache, dictLookup_dictInsert_ne _ _ _ _ hu.1]

/-- C1: for every url, when the active-worker counter is zero and the url is
not a cache key, `prefetchedPage` performs exactly one synchronous GET with a
20-second timeout and no retries, returns its body (empty string on failure)
and leaves the cache unchanged; when the url is a cache key it returns the
cached value without fetching; and when workers are active and the key is
absent it busy-polls (result pending), performing no fetch and no write. -/
theorem C1_prefetchedPage (active : Nat) (cache : Cache) (net : List FetchOutcome)
    (url : String) :
    (active = 0 → dictLookup cache url = none →
      prefetchedPage active cache net url = (some (syncFetchBody net), [Ev.get url 20], cache)) ∧
    (∀ b, dictLookup cache url = some b →
      prefetchedPage active cache net url = (some b, [], cache)) ∧
    (active ≠ 0 → dictLookup cache url = none →
      prefetchedPage active cache net url = (none, [], cache)) := by
  refine ⟨?_, ?_, ?_⟩
  · intro h1 h2
    simp [prefetchedPage, h1, h2]
  · intro b hb
    have hno : ¬(active = 0 ∧ dictLookup cache url = none) := by
      simp [hb]
    simp [prefetchedPage, hno, hb]
  · intro h1 h2
    have hno : ¬(active = 0 ∧ dictLookup cache url = none) := fun hc => h1 hc.1
    simp [prefetchedPage, hno, h1, h2]

/-- Witness for C1 at concrete inputs: with no active workers and an empty
cache the lookup does one GET with timeout 20 and returns the body without
caching it; with one active worker and a cached value it returns the cached
value. -/
theorem C1_witness :
    prefetchedPage 0 [] [FetchOutcome.resp true "BODY"] "u" =
      (some "BODY", [Ev.get "u" 20], []) ∧
    prefetchedPage 1 [("u", "CACHED")] [] "u" = (some "CACHED", [], [("u", "CACHED")]) := by
  constructor
  · have h := (C1_prefetchedPage 0 [] [FetchOutcome.resp true "BODY"] "u").1 rfl rfl
    simpa [syncFetchBody, attempt] using h
  · exact (C1_prefetchedPage 1 [("u", "CACHED")] [] "u").2.1 "CACHED" rfl

/-- C2 counterexample: one worker batch that contains the same url twice
(urls lists given to `prefetch` are not deduplicated and distinct rounds may
schedule the same url again) writes the key twice: after the first iteration
the cache maps u to a, after the second it maps u to b, so a present key's
value changed, refuting the write-once claim. -/
theorem C2_counterexample :
    dictLookup (prefetchPagesLoop ["u"]
      [FetchOutcome.resp true "a", FetchOutcome.resp true "b"] 0 []).cache "u" = some "a" ∧
    dictLookup (prefetchPagesLoop ["u", "u"]
      [FetchOutcome.resp true "a", FetchOutcome.resp true "b"] 0 []).cache "u" = some "b" ∧
    ("a" : String) ≠ "b" := by
  refine ⟨rfl, rfl, by decide⟩

/-- C2 (amended): a cache write maps the written url to the written body,
overwriting any previous value for that key, and leaves every other key's
value unchanged; consequently a url that does not occur in a worker's batch
keeps its value across that whole batch, and at most one fetch per url holds
only when the url is scheduled at most once. -/
theorem C2_cache_writes (m : Cache) (k v u : String) (urls : List String)
    (net : List FetchOutcome) (failures : Nat) :
    dictLookup (dictInsert m k v) k = some v ∧
    (u ≠ k → dictLookup (dictInsert m k v) u = dictLookup m u) ∧
    (u ∉ urls → dictLookup (prefetchPagesLoop urls net failures m).cache u = dictLookup m u) := by
  refine ⟨dictLookup_dictInsert_self m k v, ?_, ?_⟩
  · intro h
    exact dictLookup_dictInsert_ne m k v u h
  · intro h
    exact prefetchPagesLoop_cache_preserve urls net failures m u h

/-- Witness for C2 (amended) at concrete inputs. -/
theorem C2_witness :
    dictLookup (dictInsert [("x", "old")] "u" "new") "u" = some "new" ∧
    dictLookup (dictInsert [("x", "old")] "u" "new") "x" = some "old" ∧
    dictLookup (prefetchPagesLoop ["u"] [FetchOutcome.resp true "b"] 0
      [("x", "old")]).cache "x" = some "old" := by
  obtain ⟨h1, h2, h3⟩ := C2_cache_writes [("x", "old")] "u" "new" "x" ["u"]
    [FetchOutcome.resp true "b"] 0
  exact ⟨h1, h2 (by decide), h3 (by decide)⟩

/-- C3 counterexample: the failure counter is cumulative, not consecutive.
After a batch whose first url fails all retries and whose second url
succeeds, the counter is 1 (a count of consecutive failures would be 0); and
in a five-url batch alternating failure and success (so no two failures are
ever consecutive) the third failure still triggers the 10-second cooldown. -/
theorem C3_counterexample :
    (prefetchPagesLoop ["a", "b"]
      (List.replicate 4 FetchOutcome.exn ++ [FetchOutcome.resp true "x"]) 0 []).failures = 1 ∧
    Ev.sleep 10 ∈ (prefetchPagesLoop ["a", "b", "c", "d", "e"]
      (List.replicate 4 FetchOutcome.exn ++ [FetchOutcome.resp true "x"] ++
       List.replicate 4 FetchOutcome.exn ++ [FetchOutcome.resp true "y"] ++
       List.replicate 4 FetchOutcome.exn) 0 []).evs := by
  refine ⟨rfl, by decide⟩

/-- C3 (amended): the per-batch counter accumulates all-retries-failed
fetches since the last cooldown — a successful fetch does not reset it —
and each time it reaches 3 the worker sleeps an extra 10 seconds (the last
event of that step) and the counter becomes 1, not 0; below 3 no 10-second
sleep occurs. -/
theorem C3_failure_counter (url : String) (net : List FetchOutcome) (failures f2 : Nat)
    (cache : Cache)
    (hf2 : f2 = failures + (if fetchFailed (fetchWithRetries url 4 net).1 then 1 else 0)) :
    (3 ≤ f2 → (processURL url net failures cache).failures = 1 ∧
      (processURL url net failures cache).evs.getLast? = some (Ev.sleep 10)) ∧
    (f2 < 3 → (processURL url net failures cache).failures = f2 ∧
      Ev.sleep 10 ∉ (processURL url net failures cache).evs) := by
  subst hf2
  constructor
  · intro h3
    refine ⟨?_, ?_⟩
    · rw [processURL_failures, if_pos h3]
    · rw [processURL_evs, if_pos h3]
      rw [List.getLast?_concat]
  · intro h3
    have hne : ¬ 3 ≤ failures + (if fetchFailed (fetchWithRetries url 4 net).1 then 1 else 0) := by
      omega
    refine ⟨?_, ?_⟩
    · rw [processURL_failures, if_neg hne]
    · rw [processURL_evs, if_neg hne]
      simp only [List.append_nil]
      intro hmem
      rcases fetchWithRetries_evs_mem url 4 net _ hmem with h | h <;> simp at h

/-- Witness for C3 (amended): entering a url whose four attempts all fail
with counter 2, the counter reaches 3, the step ends with the 10-second
sleep, and the counter is reset to 1. -/
theorem C3_witness :
    (processURL "u" [] 2 []).failures = 1 ∧
    (processURL "u" [] 2 []).evs.getLast? = some (Ev.sleep 10) :=
  (C3_failure_counter "u" [] 2 3 [] (by decide)).1 (by omega)

/-- C4: the retry loop makes at most 4 GET attempts, every event it emits is
a timeout-5 GET at even positions and a 5-second sleep at odd positions
(hence a fixed 5-second delay between failed attempts), and when every
attempt fails the worker records the empty string as the url's cache value
(no exception escapes: the step is total and always writes the cache). -/
theorem C4_retry_policy (url : String) (net : List FetchOutcome) (failures : Nat)
    (cache : Cache) :
    (fetchWithRetries url 4 net).2.2.countP isGet ≤ 4 ∧
    (fetchWithRetries url 4 net).2.2.length ≤ 8 ∧
    (∀ i (h : i < (fetchWithRetries url 4 net).2.2.length),
      (fetchWithRetries url 4 net).2.2.get ⟨i, h⟩ =
        if i % 2 = 0 then Ev.get url 5 else Ev.sleep 5) ∧
    ((fetchWithRetries url 4 net).1 = none →
      dictLookup (processURL url net failures cache).cache url = some "") := by
  obtain ⟨h1, h2, h3⟩ := fetchWithRetries_evs url 4 net
  refine ⟨h2, by omega, h3, ?_⟩
  intro hnone
  rw [processURL_cache, hnone]
  exact dictLookup_dictInsert_self cache url ""

/-- Witness for C4: a url whose network oracle always raises makes exactly 4
attempts (8 events) and ends with the empty string cached. -/
theorem C4_witness :
    (fetchWithRetries "u" 4 []).1 = none ∧
    dictLookup (processURL "u" [] 0 []).cache "u" = some "" ∧
    (fetchWithRetries "u" 4 []).2.2.get ⟨0, by decide⟩ = Ev.get "u" 5 := by
  refine ⟨rfl, (C4_retry_policy "u" [] 0 []).2.2.2 rfl, ?_⟩
  exact (C4_retry_policy "u" [] 0 []).2.2.1 0 (by decide)

/-! ## Lemmas about the round-robin dispatcher -/

theorem pyRange_get? (step : Nat) (hstep : 0 < step) (n : Nat) :
    ∀ (start stop k : Nat), stop - start ≤ n →
      (pyRange start stop step).get? k =
        if start + k * step < stop then some (start + k * step) else none := by
  induction n with
  | zero =>
    intro start stop k hn
    have hss : ¬ start < stop := by omega
    rw [pyRange, dif_neg (fun hc => hss hc.2)]
    have hlt : ¬ start + k * step < stop := by omega
    simp [hlt]
  | succ n ih =>
    intro start stop k hn
    by_cases hss : start < stop
    · rw [pyRange, dif_pos ⟨hstep, hss⟩]
      cases k with
      | zero => simp [hss]
      | succ k =>
        have hrec := ih (start + step) stop k (by omega)
        have harith : start + step + k * step = start + (k + 1) * step := by ring
        rw [List.get?_cons_succ, hrec, harith]
    · rw [pyRange, dif_neg (fun hc => hss hc.2)]
      have hlt : ¬ start + k * step < stop := by omega
      simp [hlt]

theorem pyRange_mem (step : Nat) (hstep : 0 < step) (start stop j : Nat) :
    j ∈ pyRange start stop step ↔ start ≤ j ∧ j < stop ∧ (j - start) % step = 0 := by
  rw [List.mem_iff_get?]
  constructor
  · rintro ⟨k, hk⟩
    rw [pyRange_get? step hstep (stop - start) start stop k le_rfl] at hk
    by_cases hc : start + k * step < stop
    · rw [if_pos hc] at hk
      have hj : j = start + k * step := by
        simpa using hk.symm
      subst hj
      refine ⟨by omega, hc, ?_⟩
      simp [Nat.mul_mod_left]
    · rw [if_neg hc] at hk
      exact absurd hk (by simp)
  · rintro ⟨h1, h2, h3⟩
    refine ⟨(j - start) / step, ?_⟩
    rw [pyRange_get? step hstep (stop - start) start stop _ le_rfl]
    have hdvd : (j - start) / step * step = j - start :=
      Nat.div_mul_cancel (Nat.dvd_of_mod_eq_zero h3)
    have hj : start + (j - start) / step * step = j := by omega
    rw [hj, if_pos h2]

theorem pyRange_shard_unique (workers j len i : Nat) (hw : 0 < workers) (hj : j < len)
    (hi : i < workers) :
    j ∈ pyRange i len workers ↔ i = j % workers := by
  rw [pyRange_mem workers hw]
  constructor
  · rintro ⟨h1, _, h3⟩
    obtain ⟨m, hm⟩ := Nat.dvd_of_mod_eq_zero h3
    have hjeq : j = i + workers * m := by omega
    rw [hjeq, Nat.add_mul_mod_self_left, Nat.mod_eq_of_lt hi]
  · rintro rfl
    refine ⟨Nat.mod_le _ _, hj, ?_⟩
    have hsub : j - j % workers = workers * (j / workers) := by
      have := Nat.mod_add_div j workers
      omega
    rw [hsub]
    simp [Nat.mul_mod_right]

/-- C5: `prefetch` builds exactly `workers` batches, one thread each; batch i
holds, in order, exactly the elements of urls at indices i, i + workers,
i + 2 * workers, ...; every index below the length of urls belongs to the
one shard congruent to it modulo workers; and a worker run increments the
active-worker counter exactly once, as its first action, and decrements it
exactly once, as its last.  The dispatcher itself only spawns the batches
(daemon threads, never joined), which `prefetch` returns. -/
theorem C5_prefetch_dispatch (urls : List String) (workers : Nat) (batch : List String)
    (net : List FetchOutcome) (cache : Cache) :
    (prefetch urls workers).length = workers ∧
    (∀ i, i < workers → (prefetch urls workers).get? i = some (chunkOf urls workers i)) ∧
    (∀ i k, 0 < workers →
      (chunkOf urls workers i).get? k =
        if i + k * workers < urls.length then some (urls.getD (i + k * workers) "") else none) ∧
    (∀ j i, 0 < workers → j < urls.length → i < workers →
      (j ∈ pyRange i urls.length workers ↔ i = j % workers)) ∧
    ((prefetchPages batch net cache).evs.head? = some Ev.incWorkers ∧
      (prefetchPages batch net cache).evs.getLast? = some Ev.decWorkers ∧
      (prefetchPages batch net cache).evs.count Ev.incWorkers = 1 ∧
      (prefetchPages batch net cache).evs.count Ev.decWorkers = 1) := by
  refine ⟨by simp [prefetch], ?_, ?_, ?_, ?_, ?_, ?_, ?_⟩
  · intro i hi
    rw [prefetch, List.get?_map, List.get?_range hi]
    rfl
  · intro i k hw
    rw [chunkOf, List.get?_map, pyRange_get? workers hw (urls.length - i) i urls.length k le_rfl]
    split
    · simp
    · simp
  · intro j i hw hj hi
    exact pyRange_shard_unique workers j urls.length i hw hj hi
  · rfl
  · show ((Ev.incWorkers :: (prefetchPagesLoop batch net 0 cache).evs) ++ [Ev.decWorkers]).getLast?
      = some Ev.decWorkers
    exact List.getLast?_concat _
  · obtain ⟨hinc, _⟩ := prefetchPagesLoop_no_counter batch net 0 cache
    show ((Ev.incWorkers :: (prefetchPagesLoop batch net 0 cache).evs) ++
        [Ev.decWorkers]).count Ev.incWorkers = 1
    rw [List.count_append, List.count_cons_self]
    rw [List.count_eq_zero.mpr hinc]
    decide
  · obtain ⟨_, hdec⟩ := prefetchPagesLoop_no_counter batch net 0 cache
    show ((Ev.incWorkers :: (prefetchPagesLoop batch net 0 cache).evs) ++
        [Ev.decWorkers]).count Ev.decWorkers = 1
    rw [List.count_append, List.count_cons_of_ne (by decide)]
    rw [List.count_eq_zero.mpr hdec]
    decide

/-- Witness for C5 at concrete inputs: five urls over two workers. -/
theorem C5_witness :
    (chunkOf ["a", "b", "c", "d", "e"] 2 0).get? 1 = some "c" ∧
    (3 ∈ pyRange 1 5 2 ↔ 1 = 3 % 2) ∧
    (prefetchPages ["x"] [] []).evs.count Ev.incWorkers = 1 := by
  refine ⟨?_, ?_, ?_⟩
  · have h := (C5_prefetch_dispatch ["a", "b", "c", "d", "e"] 2 [] [] []).2.2.1 0 1 (by decide)
    simpa using h
  · exact (C5_prefetch_dispatch ["a", "b", "c", "d", "e"] 2 [] [] []).2.2.2.1 3 1
      (by decide) (by decide) (by decide)
  · exact (C5_prefetch_dispatch [] 1 ["x"] [] []).2.2.2.2.2.2.1

/-- C7: `userRatings` maps a rating bar whose style encodes the integer
width percentage p to the string `str(round(p / 100 * 5, 1))` computed with
Python float semantics (`pyRatingStr`), and a bar with no average/style
element to the empty string; in particular 80 percent yields 4.0 and 0
percent yields 0.0. -/
theorem C7_userRatings (bars : List (Option ℕ)) :
    userRatings [some 80, some 0, none] = ["4.0", "0.0", ""] ∧
    (userRatings bars).length = bars.length ∧
    (∀ i, bars.get? i = some none → (userRatings bars).get? i = some "") ∧
    (∀ i p, bars.get? i = some (some p) → (userRatings bars).get? i = some (pyRatingStr p)) := by
  refine ⟨by decide, by simp [userRatings], ?_, ?_⟩
  · intro i hi
    rw [userRatings, List.get?_map, hi]
    rfl
  · intro i p hi
    rw [userRatings, List.get?_map, hi]
    rfl

/-- Witness for C7 at concrete inputs. -/
theorem C7_witness :
    (userRatings [some 80]).get? 0 = some (pyRatingStr 80) ∧
    (userRatings [none]).get? 0 = some "" :=
  ⟨(C7_userRatings [some 80]).2.2.2 0 80 rfl, (C7_userRatings [none]).2.2.1 0 rfl⟩

/-- C8: `isSeasonURL` holds exactly when the second-to-last hyphen token of
the last path segment is the season word (true on the season example, false
on the plain-title example and on the empty string); and in the single-list
branch of the main script, when the active type filter includes series every
season URL is retagged with title type series, while when it does not every
season URL is removed and every non-season entry of the deduplicated list is
kept. -/
theorem C8_seasonURL (collected : List (String × String × String)) (titleTypes : List String) :
    isSeasonURL "https://site/t123-temporada-1/" = true ∧
    isSeasonURL "https://site/t123-nome-do-filme/" = false ∧
    isSeasonURL "" = false ∧
    ("series/" ∈ titleTypes → ∀ e ∈ listBranch collected titleTypes,
      isSeasonURL e.1 = true → e.2.2 = "series") ∧
    ("series/" ∉ titleTypes → ∀ e ∈ listBranch collected titleTypes,
      isSeasonURL e.1 = false) ∧
    ("series/" ∉ titleTypes → ∀ e ∈ deduplicatedList collected,
      isSeasonURL e.1 = false → e ∈ listBranch collected titleTypes) := by
  refine ⟨by decide, by decide, by decide, ?_, ?_, ?_⟩
  · intro hs e he hseason
    rw [listBranch, if_pos hs] at he
    simp only [seasonRetag, List.mem_map] at he
    obtain ⟨x, _, rfl⟩ := he
    simp only at hseason
    simp [hseason]
  · intro hs e he
    rw [listBranch, if_neg hs] at he
    simp only [seasonFilter, List.mem_filter] at he
    simpa using he.2
  · intro hs e he hseason
    rw [listBranch, if_neg hs]
    simp only [seasonFilter, List.mem_filter]
    exact ⟨he, by simp [hseason]⟩

/-- Witness for C8 at concrete inputs: with series in the filter a season
URL is retagged; without it the season URL is removed and the film entry is
kept. -/
theorem C8_witness :
    (∀ e ∈ listBranch [("https://site/t1-temporada-1/", "", "film")] ["series/"],
      isSeasonURL e.1 = true → e.2.2 = "series") ∧
    (∀ e ∈ listBranch [("https://site/t1-temporada-1/", "", "film"),
        ("https://site/t2-filme/", "", "film")] ["filmes/"],
      isSeasonURL e.1 = false) ∧
    ("https://site/t2-filme/", "", "film") ∈
      listBranch [("https://site/t1-temporada-1/", "", "film"),
        ("https://site/t2-filme/", "", "film")] ["filmes/"] := by
  refine ⟨?_, ?_, ?_⟩
  · exact (C8_seasonURL [("https://site/t1-temporada-1/", "", "film")] ["series/"]).2.2.2.1
      (by decide)
  · exact (C8_seasonURL [("https://site/t1-temporada-1/", "", "film"),
      ("https://site/t2-filme/", "", "film")] ["filmes/"]).2.2.2.2.1 (by decide)
  · exact (C8_seasonURL [("https://site/t1-temporada-1/", "", "film"),
      ("https://site/t2-filme/", "", "film")] ["filmes/"]).2.2.2.2.2 (by decide)
      ("https://site/t2-filme/", "", "film") (by decide) (by decide)

/-! ## Lemmas about the release-dates URL rewrite -/

theorem mem_takeWhile_pred (p : Char → Bool) (l : List Char) (c : Char)
    (hc : c ∈ l.takeWhile p) : p c = true := by
  induction l with
  | nil => simp [List.takeWhile] at hc
  | cons a as ih =>
    cases hpa : p a with
    | true =>
      rw [List.takeWhile_cons, hpa] at hc
      simp only [if_true] at hc
      rcases List.mem_cons.1 hc with rfl | hc
      · exact hpa
      · exact ih hc
    | false =>
      rw [List.takeWhile_cons, hpa] at hc
      simp at hc

theorem takeWhile_append_eq (p : Char → Bool) (l1 : List Char) (a : Char) (l2 : List Char)
    (h1 : ∀ c ∈ l1, p c = true) (h2 : p a = false) :
    (l1 ++ a :: l2).takeWhile p = l1 ∧ (l1 ++ a :: l2).dropWhile p = a :: l2 := by
  induction l1 with
  | nil => simp [List.takeWhile_cons, List.dropWhile_cons, h2]
  | cons x xs ih =>
    have hx : p x = true := h1 x (by simp)
    obtain ⟨ht, hd⟩ := ih (fun c hc => h1 c (by simp [hc]))
    simp [List.takeWhile_cons, List.dropWhile_cons, hx, ht, hd]

theorem dropLast_append_getLast? : ∀ (l : List Char) (a : Char), l.getLast? = some a →
    l.dropLast ++ [a] = l := by
  intro l
  induction l with
  | nil =>
    intro a h
    simp at h
  | cons x xs ih =>
    intro a h
    cases xs with
    | nil =>
      simp only [List.getLast?_singleton, Option.some.injEq] at h
      subst h
      rfl
    | cons y ys =>
      rw [List.getLast?_cons_cons] at h
      have hrec := ih a h
      show (x :: y :: ys).dropLast ++ [a] = x :: y :: ys
      simp only [List.dropLast_cons₂, List.cons_append]
      rw [hrec]

/-- C10: `datesPageURL` rewrites a url to the release-dates page only when
the url ends in the letter t followed by one or more digits and a trailing
slash (the rewrite result being the estreias-do-filme URL built from those
digits); every other url is returned unchanged, so the dates-page prefetch
round and the year fallback re-request the original url itself for such
urls. -/
theorem C10_datesPageURL (url : String) (p ds : List Char) :
    (¬ endsWithIdSlash url → datesPageURL url = url ∧ yearFallbackRequestURL url = url ∧
      datesPrefetchURLs [url] = [url]) ∧
    (url.data = p ++ 't' :: ds ++ ['/'] → ds ≠ [] → (∀ c ∈ ds, c.isDigit = true) →
      datesPageURL url = String.mk (datesURLHead ++ ds ++ ['/'])) ∧
    datesPageURL "https://filmow.com/t123/" = "https://filmow.com/estreias-do-filme/123/" ∧
    datesPageURL "https://filmow.com/t123-temporada-1/" =
      "https://filmow.com/t123-temporada-1/" := by
  have hid : ¬ endsWithIdSlash url → datesPageURL url = url := by
    intro hno
    by_cases h1 : url.data.getLast? = some '/'
    · by_cases h2 : (url.data.dropLast.reverse.takeWhile Char.isDigit).isEmpty
      · simp only [datesPageURL, h1, if_true, h2, if_pos]
      · by_cases h3 :
            (url.data.dropLast.reverse.dropWhile Char.isDigit).head? = some 't'
        · exfalso
          apply hno
          rcases hrest : url.data.dropLast.reverse.dropWhile Char.isDigit with _ | ⟨c, tail⟩
          · rw [hrest] at h3
            simp at h3
          · rw [hrest] at h3
            simp only [List.head?_cons, Option.some.injEq] at h3
            subst h3
            have hsplit := List.takeWhile_append_dropWhile (p := Char.isDigit)
              (l := url.data.dropLast.reverse)
            rw [hrest] at hsplit
            have hdata : url.data =
                tail.reverse ++ 't' :: ((url.data.dropLast.reverse.takeWhile
                  Char.isDigit).reverse ++ ['/']) := by
              have hd := dropLast_append_getLast? url.data '/' h1
              calc url.data = url.data.dropLast ++ ['/'] := hd.symm
                _ = url.data.dropLast.reverse.reverse ++ ['/'] := by
                    rw [List.reverse_reverse]
                _ = ((url.data.dropLast.reverse.takeWhile Char.isDigit) ++
                      't' :: tail).reverse ++ ['/'] := by rw [hsplit]
                _ = tail.reverse ++ 't' :: ((url.data.dropLast.reverse.takeWhile
                      Char.isDigit).reverse ++ ['/']) := by
                    simp
            refine ⟨tail.reverse,
              (url.data.dropLast.reverse.takeWhile Char.isDigit).reverse, by
                simpa using hdata, ?_, ?_⟩
            · simp only [ne_eq, List.reverse_eq_nil_iff]
              intro hnil
              rw [hnil] at h2
              simp at h2
            · intro c hc
              exact mem_takeWhile_pred Char.isDigit _ c (List.mem_reverse.1 hc)
        · simp only [datesPageURL, h1, if_true, if_pos]
          simp [h2, h3]
    · simp only [datesPageURL, h1]
      simp
  refine ⟨fun hno => ⟨hid hno, hid hno, by simp [datesPrefetchURLs, hid hno]⟩, ?_, by decide,
    by decide⟩
  intro hdata hne hdig
  have hform : url.data = (p ++ 't' :: ds) ++ ['/'] := by
    rw [hdata]
  have hlast : url.data.getLast? = some '/' := by
    rw [hform]
    exact List.getLast?_concat _
  have hdrop : url.data.dropLast = p ++ 't' :: ds := by
    rw [hform, List.dropLast_concat]
  have hrev : url.data.dropLast.reverse = ds.reverse ++ 't' :: p.reverse := by
    rw [hdrop]
    simp
  obtain ⟨htw, hdw⟩ := takeWhile_append_eq Char.isDigit ds.reverse 't' p.reverse
    (fun c hc => hdig c (List.mem_reverse.1 hc)) (by decide)
  have hds : (ds.reverse).isEmpty = false := by
    cases ds with
    | nil => exact absurd rfl hne
    | cons d dtl => simp
  rw [datesPageURL, if_pos hlast]
  simp only [hrev, htw, hdw]
  simp [hds]

/-- Witness for C10 at concrete inputs: the id-shaped url is rewritten from
its decomposition, and a url that cannot be decomposed is returned
unchanged. -/
theorem C10_witness :
    datesPageURL "https://filmow.com/t123/" =
      String.mk (datesURLHead ++ ['1', '2', '3'] ++ ['/']) ∧
    datesPageURL "abc" = "abc" := by
  have hno : ¬ endsWithIdSlash "abc" := by
    rintro ⟨p, ds, hdata, -, -⟩
    have h := congrArg List.getLast? hdata
    rw [show p ++ 't' :: ds ++ ['/'] = (p ++ 't' :: ds) ++ ['/'] from by simp,
      List.getLast?_concat] at h
    exact absurd h (by decide)
  refine ⟨?_, ((C10_datesPageURL "abc" [] []).1 hno).1⟩
  exact (C10_datesPageURL "https://filmow.com/t123/" "https://filmow.com/".data
    ['1', '2', '3']).2.1 (by decide) (by decide) (by decide)

/-- C9 counterexample: with the bare-username target someuser and a failing
reachability probe, `parseTarget` still returns the resolved user URL (it
only prints the could-not-reach warning), and the run proceeds to the final
Done line with exit status 0 instead of aborting with a non-zero status. -/
theorem C9_counterexample :
    (parseTarget "someuser" ProbeOutcome.exn).1 =
      some (true, "https://filmow.com/usuario/someuser/".data, "someuser".data) ∧
    (parseTarget "someuser" ProbeOutcome.exn).2 = ["could not reach target"] ∧
    runModel ["filmow-to-csv", "someuser"] "/cwd" (fun _ => false) (fun _ => false)
      none ProbeOutcome.exn = RunOutcome.doneOk := by
  refine ⟨by decide, by decide, rfl⟩

/-- C9 (amended): the probe outcome never influences the parsed target, so
an unreachable target only warns; the process terminates with the
command-line error codes when option parsing fails, with status 3 on an
unreadable local list file, and with a non-zero status (the TypeError path)
on an unresolvable target; in the remaining cases the run reaches the final
Done line and exits zero. -/
theorem C9_exit_paths (argv : List String) (cwd target : String) (isdir isfile : String → Bool)
    (fileRead : Option (List String)) (probe probe2 : ProbeOutcome) :
    ((parseTarget target probe).1 = (parseTarget target probe2).1) ∧
    (∀ c, cliParse argv cwd isdir = .error c →
      runModel argv cwd isdir isfile fileRead probe = .exited c) ∧
    (∀ cfg, cliParse argv cwd isdir = .ok cfg → isfile (argv.getLastD "") = true →
      fileRead = none → runModel argv cwd isdir isfile fileRead probe = .exited 3) ∧
    (∀ cfg lines, cliParse argv cwd isdir = .ok cfg → isfile (argv.getLastD "") = true →
      fileRead = some lines → runModel argv cwd isdir isfile fileRead probe = .doneOk) ∧
    (∀ cfg, cliParse argv cwd isdir = .ok cfg → isfile (argv.getLastD "") = false →
      classifyTarget (argv.getLastD "") = none →
      runModel argv cwd isdir isfile fileRead probe = .exited 1) ∧
    (∀ cfg r, cliParse argv cwd isdir = .ok cfg → isfile (argv.getLastD "") = false →
      classifyTarget (argv.getLastD "") = some r →
      runModel argv cwd isdir isfile fileRead probe = .doneOk) := by
  refine ⟨?_, ?_, ?_, ?_, ?_, ?_⟩
  · cases hc : classifyTarget target <;> simp [parseTarget, hc]
  · intro c h
    simp [runModel, h]
  · intro cfg h hfile hread
    simp only [List.getLastD_eq_getLast?] at hfile
    simp [runModel, h, hfile, hread]
  · intro cfg lines h hfile hread
    simp only [List.getLastD_eq_getLast?] at hfile
    simp [runModel, h, hfile, hread]
  · intro cfg h hfile hclass
    simp only [List.getLastD_eq_getLast?] at hfile hclass
    simp [runModel, h, hfile, parseTarget, hclass]
  · intro cfg r h hfile hclass
    simp only [List.getLastD_eq_getLast?] at hfile hclass
    simp [runModel, h, hfile, parseTarget, hclass]

/-- Witness for C9 (amended) at concrete inputs: a malformed thread count
exits 2, an unreadable list file exits 3, an unresolvable target terminates
non-zero, and a failing probe still proceeds to Done. -/
theorem C9_witness :
    runModel ["filmow-to-csv", "-t", "xx", "out", "someuser"] "/cwd" (fun s => s = "out")
      (fun _ => false) none ProbeOutcome.exn = RunOutcome.exited 2 ∧
    runModel ["filmow-to-csv", "mylist.txt"] "/cwd" (fun _ => false) (fun _ => true)
      none ProbeOutcome.exn = RunOutcome.exited 3 ∧
    runModel ["filmow-to-csv", "not a user"] "/cwd" (fun _ => false) (fun _ => false)
      none ProbeOutcome.exn = RunOutcome.exited 1 ∧
    runModel ["filmow-to-csv", "someuser"] "/cwd" (fun _ => false) (fun _ => false)
      none (ProbeOutcome.resp 500) = RunOutcome.doneOk := by
  refine ⟨?_, ?_, ?_, ?_⟩
  · exact (C9_exit_paths ["filmow-to-csv", "-t", "xx", "out", "someuser"] "/cwd" ""
      (fun s => s = "out") (fun _ => false) none ProbeOutcome.exn ProbeOutcome.exn).2.1 2
      (by with_unfolding_all rfl)
  · exact (C9_exit_paths ["filmow-to-csv", "mylist.txt"] "/cwd" "" (fun _ => false)
      (fun _ => true) none ProbeOutcome.exn ProbeOutcome.exn).2.2.1 (defaultConfig "/cwd")
      (by rfl) (by rfl) rfl
  · exact (C9_exit_paths ["filmow-to-csv", "not a user"] "/cwd" "" (fun _ => false)
      (fun _ => false) none ProbeOutcome.exn ProbeOutcome.exn).2.2.2.2.1 (defaultConfig "/cwd")
      (by rfl) (by rfl) (by rfl)
  · exact (C9_exit_paths ["filmow-to-csv", "someuser"] "/cwd" "" (fun _ => false)
      (fun _ => false) none (ProbeOutcome.resp 500) (ProbeOutcome.resp 500)).2.2.2.2.2
      (defaultConfig "/cwd")
      (true, "https://filmow.com/usuario/someuser/".data, "someuser".data) (by rfl) (by rfl)
      (by rfl)

end Filmow
